import Mathlib

/-!
Shallow embedding of the metric core of VolleyVision (sketch.js):
calibration (finalizeCalibration), the pixel-to-metre converters
(metersAboveNetAtPoint, metersHorizDistance), the per-rep aggregation
(computeAllRepMetrics) and the session statistics fold of
renderStatsTable.  JavaScript numbers are modelled as exact rationals
extended with the IEEE special values +Infinity, -Infinity and NaN,
which arise in the source when the reference line is vertical.
-/

/-- A JavaScript number: a finite (exact) rational, an infinity, or NaN. -/
inductive JNum where
  | fin : ℚ → JNum
  | posInf : JNum
  | negInf : JNum
  | nan : JNum
deriving DecidableEq

/-- JavaScript addition on the extended number line. -/
def JNum.add : JNum → JNum → JNum
  | .nan, _ => .nan
  | _, .nan => .nan
  | .fin a, .fin b => .fin (a + b)
  | .fin _, .posInf => .posInf
  | .fin _, .negInf => .negInf
  | .posInf, .fin _ => .posInf
  | .negInf, .fin _ => .negInf
  | .posInf, .posInf => .posInf
  | .negInf, .negInf => .negInf
  | .posInf, .negInf => .nan
  | .negInf, .posInf => .nan

/-- JavaScript subtraction on the extended number line. -/
def JNum.sub : JNum → JNum → JNum
  | .nan, _ => .nan
  | _, .nan => .nan
  | .fin a, .fin b => .fin (a - b)
  | .fin _, .posInf => .negInf
  | .fin _, .negInf => .posInf
  | .posInf, .fin _ => .posInf
  | .negInf, .fin _ => .negInf
  | .posInf, .posInf => .nan
  | .negInf, .negInf => .nan
  | .posInf, .negInf => .posInf
  | .negInf, .posInf => .negInf

/-- JavaScript multiplication on the extended number line. -/
def JNum.mul : JNum → JNum → JNum
  | .nan, _ => .nan
  | _, .nan => .nan
  | .fin a, .fin b => .fin (a * b)
  | .fin a, .posInf => if a = 0 then .nan else if 0 < a then .posInf else .negInf
  | .fin a, .negInf => if a = 0 then .nan else if 0 < a then .negInf else .posInf
  | .posInf, .fin b => if b = 0 then .nan else if 0 < b then .posInf else .negInf
  | .negInf, .fin b => if b = 0 then .nan else if 0 < b then .negInf else .posInf
  | .posInf, .posInf => .posInf
  | .negInf, .negInf => .posInf
  | .posInf, .negInf => .negInf
  | .negInf, .posInf => .negInf

/-- JavaScript division.  Division of a nonzero finite number by zero
yields a signed infinity and 0 / 0 yields NaN, exactly as in IEEE
arithmetic with a positive zero divisor (the zero divisors arising in the
source are differences x - x, which are positive zeros). -/
def JNum.div : JNum → JNum → JNum
  | .nan, _ => .nan
  | _, .nan => .nan
  | .fin a, .fin b =>
      if b = 0 then (if a = 0 then .nan else if 0 < a then .posInf else .negInf)
      else .fin (a / b)
  | .fin _, .posInf => .fin 0
  | .fin _, .negInf => .fin 0
  | .posInf, .fin b => if 0 ≤ b then .posInf else .negInf
  | .negInf, .fin b => if 0 ≤ b then .negInf else .posInf
  | .posInf, .posInf => .nan
  | .posInf, .negInf => .nan
  | .negInf, .posInf => .nan
  | .negInf, .negInf => .nan

/-- The JavaScript strict greater-than comparison; any comparison with
NaN is false. -/
def JNum.jgt : JNum → JNum → Bool
  | .nan, _ => false
  | _, .nan => false
  | .fin a, .fin b => decide (b < a)
  | .fin _, .posInf => false
  | .fin _, .negInf => true
  | .posInf, .posInf => false
  | .posInf, _ => true
  | .negInf, _ => false

/-- The JavaScript isFinite predicate. -/
def JNum.isFinite : JNum → Bool
  | .fin _ => true
  | _ => false

/-- JavaScript Math.round: round half toward positive infinity. -/
def jsRound (q : ℚ) : ℤ := ⌊q + 1 / 2⌋

/-- Official net height constant NET_HEIGHT_M = 2.43 (sketch.js line 27). -/
def NET_HEIGHT_M : ℚ := 2.43

/-- A calibration click, pixel coordinates (sketch.js mousePressed). -/
structure Pt where
  x : ℚ
  y : ℚ
deriving DecidableEq

/-- The four calibration points calibPts = \x7b LB, LT, RB, RT \x7d. -/
structure CalibPts where
  LB : Pt
  LT : Pt
  RB : Pt
  RT : Pt
deriving DecidableEq

/-- The top-tape line topLine = \x7b m, b \x7d stored by finalizeCalibration. -/
structure TopLine where
  m : JNum
  b : JNum
deriving DecidableEq

/-- The calibration globals pixelsPerMeter and topLine; both start null
and are set together by finalizeCalibration. -/
structure CalibState where
  pixelsPerMeter : Option ℚ
  topLine : Option TopLine
deriving DecidableEq

/-- finalizeCalibration (sketch.js lines 459-472): average the two net
pixel spans into pixelsPerMeter and fit the line through LT and RT.
The slope division is JavaScript division, so a vertical pair of top
points produces an infinite or NaN slope rather than an error. -/
def finalizeCalibration (c : CalibPts) : CalibState :=
  let hLeft := |c.LT.y - c.LB.y|
  let hRight := |c.RT.y - c.RB.y|
  let hAvgPx := (hLeft + hRight) / 2
  let ppm := hAvgPx / NET_HEIGHT_M
  let m := JNum.div (.fin (c.RT.y - c.LT.y)) (.fin (c.RT.x - c.LT.x))
  let b := JNum.sub (.fin c.LT.y) (JNum.mul m (.fin c.LT.x))
  { pixelsPerMeter := some ppm, topLine := some { m := m, b := b } }

/-- metersAboveNetAtPoint (sketch.js lines 479-484).  The JavaScript
guard is the truthiness test if (!pixelsPerMeter || !topLine) return
null, so the value 0 for pixelsPerMeter is rejected exactly like a
missing model. -/
def metersAboveNetAtPoint (st : CalibState) (x y : ℚ) : Option JNum :=
  match st.pixelsPerMeter, st.topLine with
  | some ppm, some tl =>
      if ppm = 0 then none
      else
        let yTop := JNum.add (JNum.mul tl.m (.fin x)) tl.b
        let dyPx := JNum.sub yTop (.fin y)
        some (JNum.div dyPx (.fin ppm))
  | _, _ => none

/-- A recorded click with its video timestamp (sketch.js mousePressed). -/
structure ClickedPoint where
  x : ℚ
  y : ℚ
  t : ℚ
deriving DecidableEq

/-- metersHorizDistance (sketch.js lines 490-494), with the same
truthiness guard on pixelsPerMeter. -/
def metersHorizDistance (st : CalibState) (p1 p2 : ClickedPoint) : Option ℚ :=
  match st.pixelsPerMeter with
  | some ppm => if ppm = 0 then none else some (|p2.x - p1.x| / ppm)
  | none => none

/-- The cosmetic direction arrow of a rep. -/
inductive Direction where
  | fwd : Direction
  | back : Direction
  | neutral : Direction
deriving DecidableEq

/-- The four derived metric fields written into a rep by
computeAllRepMetrics. -/
structure RepMetrics where
  peakM : Option ℚ
  aboveNetCM : Option ℤ
  widthM : Option ℚ
  direction : Option Direction
deriving DecidableEq

/-- The peak search loop of computeAllRepMetrics (sketch.js lines
516-520): peakAboveM starts at -Infinity and is replaced whenever a
non-null offset compares strictly greater. -/
def peakFold (st : CalibState) (pts : List ClickedPoint) : JNum :=
  pts.foldl
    (fun acc p =>
      match metersAboveNetAtPoint st p.x p.y with
      | some a => if JNum.jgt a acc then a else acc
      | none => acc)
    JNum.negInf

/-- The per-rep body of computeAllRepMetrics (sketch.js lines 505-538):
fewer than 2 points yields all-null fields; otherwise the peak fields
are set only when the peak is finite, the width comes from
metersHorizDistance on the first and last points, and the direction
arrow is always assigned from the first and last x coordinates. -/
def computeRepMetrics (st : CalibState) (points : List ClickedPoint) : RepMetrics :=
  match points with
  | [] => { peakM := none, aboveNetCM := none, widthM := none, direction := none }
  | [_] => { peakM := none, aboveNetCM := none, widthM := none, direction := none }
  | p0 :: p1 :: rest =>
      let peakAboveM := peakFold st (p0 :: p1 :: rest)
      let pm : Option ℚ × Option ℤ :=
        match peakAboveM with
        | .fin q => (some (NET_HEIGHT_M + q), some (jsRound (q * 100)))
        | _ => (none, none)
      let endP := (p1 :: rest).getLast (List.cons_ne_nil p1 rest)
      let wM := metersHorizDistance st p0 endP
      { peakM := pm.1
        aboveNetCM := pm.2
        widthM := wM
        direction :=
          some (if endP.x > p0.x then .fwd else if endP.x < p0.x then .back else .neutral) }

/-- computeAllRepMetrics over the whole trails list. -/
def computeAllRepMetrics (st : CalibState) (reps : List (List ClickedPoint)) : List RepMetrics :=
  reps.map (computeRepMetrics st)

/-- The accumulator of the statistics loop in renderStatsTable
(sketch.js lines 549-572): bestIdx starts at -1, bestVal at -Infinity. -/
structure StatsAcc where
  bestIdx : ℤ
  bestVal : JNum
  sumPeak : ℚ
  nPeak : ℕ
  sumWidth : ℚ
  nWidth : ℕ
deriving DecidableEq

/-- One iteration of the renderStatsTable loop at rep index i. -/
def statsStep (i : ℕ) (acc : StatsAcc) (r : RepMetrics) : StatsAcc :=
  let acc1 :=
    match r.peakM with
    | some v =>
        let accB :=
          if JNum.jgt (.fin v) acc.bestVal then
            { acc with bestVal := .fin v, bestIdx := (i : ℤ) }
          else acc
        { accB with sumPeak := accB.sumPeak + v, nPeak := accB.nPeak + 1 }
    | none => acc
  match r.widthM with
  | some w => { acc1 with sumWidth := acc1.sumWidth + w, nWidth := acc1.nWidth + 1 }
  | none => acc1

/-- The indexed for loop of renderStatsTable. -/
def statsGo : ℕ → StatsAcc → List RepMetrics → StatsAcc
  | _, acc, [] => acc
  | i, acc, r :: rs => statsGo (i + 1) (statsStep i acc r) rs

/-- The initial accumulator of renderStatsTable. -/
def statsInit : StatsAcc :=
  { bestIdx := -1, bestVal := JNum.negInf, sumPeak := 0, nPeak := 0, sumWidth := 0, nWidth := 0 }

/-- The statistics computed by renderStatsTable over the trails list. -/
def sessionStats (reps : List RepMetrics) : StatsAcc := statsGo 0 statsInit reps

/-- avgPeak of renderStatsTable: nPeak is truthy exactly when nonzero. -/
def avgPeak (reps : List RepMetrics) : Option ℚ :=
  let a := sessionStats reps
  if a.nPeak = 0 then none else some (a.sumPeak / (a.nPeak : ℚ))

/-- avgWidth of renderStatsTable. -/
def avgWidth (reps : List RepMetrics) : Option ℚ :=
  let a := sessionStats reps
  if a.nWidth = 0 then none else some (a.sumWidth / (a.nWidth : ℚ))

/-- The vertical-offset formula of metersAboveNetAtPoint for a model
with scale ppm and finite line y = s x + b, as a plain rational. -/
def offQ (ppm s b : ℚ) (p : ClickedPoint) : ℚ := (s * p.x + b - p.y) / ppm

/-! Helper lemmas about the converters. -/

/-- With a model whose scale is nonzero and whose line is finite, the
vertical-offset converter computes the spec formula exactly. -/
lemma metersAboveNet_model (ppm s b x y : ℚ) (h : ppm ≠ 0) :
    metersAboveNetAtPoint ⟨some ppm, some ⟨.fin s, .fin b⟩⟩ x y
      = some (.fin ((s * x + b - y) / ppm)) := by
  simp [metersAboveNetAtPoint, h, JNum.mul, JNum.add, JNum.sub, JNum.div]

/-- The converter on a recorded point, phrased with offQ. -/
lemma metersAboveNet_offQ (ppm s b : ℚ) (p : ClickedPoint) (h : ppm ≠ 0) :
    metersAboveNetAtPoint ⟨some ppm, some ⟨.fin s, .fin b⟩⟩ p.x p.y
      = some (.fin (offQ ppm s b p)) :=
  metersAboveNet_model ppm s b p.x p.y h

/-- With no pixelsPerMeter the vertical-offset converter returns null. -/
lemma metersAboveNet_noModel (tl : Option TopLine) (x y : ℚ) :
    metersAboveNetAtPoint ⟨none, tl⟩ x y = none := by
  cases tl <;> rfl

/-- With no pixelsPerMeter the horizontal converter returns null. -/
lemma metersHoriz_noModel (tl : Option TopLine) (p1 p2 : ClickedPoint) :
    metersHorizDistance ⟨none, tl⟩ p1 p2 = none := rfl

/-- C1 (amended): finalizeCalibration performs no degeneracy check.
When LT.x = RT.x it still returns a calibration model, whose stored
reference-line slope is a non-finite JavaScript number: +Infinity,
-Infinity, or NaN.  The reference height is the fixed constant 2.43 > 0,
so the non-positive-height branch of the claim cannot arise. -/
theorem c1_finalize_vertical_silent_nonfinite_slope (c : CalibPts)
    (h : c.LT.x = c.RT.x) :
    ((finalizeCalibration c).topLine.map (fun tl => tl.m.isFinite)) = some false ∧
    ((finalizeCalibration c).topLine.map TopLine.m = some JNum.posInf ∨
     (finalizeCalibration c).topLine.map TopLine.m = some JNum.negInf ∨
     (finalizeCalibration c).topLine.map TopLine.m = some JNum.nan) := by
  have hx : c.RT.x - c.LT.x = 0 := sub_eq_zero_of_eq h.symm
  have htop : (finalizeCalibration c).topLine
      = some { m := JNum.div (.fin (c.RT.y - c.LT.y)) (.fin (c.RT.x - c.LT.x))
               b := JNum.sub (.fin c.LT.y)
                  (JNum.mul (JNum.div (.fin (c.RT.y - c.LT.y)) (.fin (c.RT.x - c.LT.x)))
                    (.fin c.LT.x)) } := rfl
  rw [htop, hx]
  simp only [Option.map_some', JNum.div]
  split_ifs <;> simp [JNum.isFinite]

/-- Witness for c1_finalize_vertical_silent_nonfinite_slope at a
vertical calibration input. -/
theorem c1_witness :
    ((finalizeCalibration ⟨⟨100, 400⟩, ⟨100, 200⟩, ⟨700, 410⟩, ⟨100, 205⟩⟩).topLine.map
        (fun tl => tl.m.isFinite)) = some false ∧
    ((finalizeCalibration ⟨⟨100, 400⟩, ⟨100, 200⟩, ⟨700, 410⟩, ⟨100, 205⟩⟩).topLine.map
        TopLine.m = some JNum.posInf ∨
     (finalizeCalibration ⟨⟨100, 400⟩, ⟨100, 200⟩, ⟨700, 410⟩, ⟨100, 205⟩⟩).topLine.map
        TopLine.m = some JNum.negInf ∨
     (finalizeCalibration ⟨⟨100, 400⟩, ⟨100, 200⟩, ⟨700, 410⟩, ⟨100, 205⟩⟩).topLine.map
        TopLine.m = some JNum.nan) :=
  c1_finalize_vertical_silent_nonfinite_slope
    ⟨⟨100, 400⟩, ⟨100, 200⟩, ⟨700, 410⟩, ⟨100, 205⟩⟩ rfl

/-- C1 counterexample: with LT = (100,200) and RT = (100,205) sharing
the x coordinate 100, finalizeCalibration signals nothing and returns a
complete model: pixelsPerMeter is set and the stored line has slope
+Infinity and intercept -Infinity. -/
theorem c1_counterexample :
    (finalizeCalibration ⟨⟨100, 400⟩, ⟨100, 200⟩, ⟨700, 410⟩, ⟨100, 205⟩⟩).pixelsPerMeter
        = some (250 / 3) ∧
    (finalizeCalibration ⟨⟨100, 400⟩, ⟨100, 200⟩, ⟨700, 410⟩, ⟨100, 205⟩⟩).topLine
        = some { m := JNum.posInf, b := JNum.negInf } := by
  constructor
  · simp [finalizeCalibration, NET_HEIGHT_M]
    norm_num
  · simp [finalizeCalibration, JNum.div, JNum.mul, JNum.sub]
    norm_num

/-- C2: away from the vertical degeneracy, finalizeCalibration computes
exactly the spec formulas: the averaged pixel span divided by the
reference height, and the line through LT and RT. -/
theorem c2_finalize_formulas (c : CalibPts) (h : c.LT.x ≠ c.RT.x) :
    finalizeCalibration c =
      { pixelsPerMeter := some ((|c.LT.y - c.LB.y| + |c.RT.y - c.RB.y|) / 2 / NET_HEIGHT_M)
        topLine := some
          { m := .fin ((c.RT.y - c.LT.y) / (c.RT.x - c.LT.x))
            b := .fin (c.LT.y - (c.RT.y - c.LT.y) / (c.RT.x - c.LT.x) * c.LT.x) } } := by
  have hx : c.RT.x - c.LT.x ≠ 0 := sub_ne_zero.mpr (Ne.symm h)
  simp [finalizeCalibration, JNum.div, JNum.mul, JNum.sub, hx]

/-- Witness for c2_finalize_formulas on the concrete scenario of the
specification: pixelsPerMeter is exactly 202.5 / 2.43. -/
theorem c2_witness :
    ((100 : ℚ) ≠ 700) ∧
    (finalizeCalibration ⟨⟨100, 400⟩, ⟨100, 200⟩, ⟨700, 410⟩, ⟨700, 205⟩⟩).pixelsPerMeter
        = some (202.5 / 2.43) ∧
    (finalizeCalibration ⟨⟨100, 400⟩, ⟨100, 200⟩, ⟨700, 410⟩, ⟨700, 205⟩⟩).topLine
        = some { m := .fin (5 / 600), b := .fin (200 - 5 / 600 * 100) } := by
  refine ⟨by norm_num, ?_, ?_⟩ <;>
  · rw [c2_finalize_formulas ⟨⟨100, 400⟩, ⟨100, 200⟩, ⟨700, 410⟩, ⟨700, 205⟩⟩ (by norm_num)]
    norm_num [NET_HEIGHT_M]

/-- C3: with a calibration model present (nonzero scale, finite line),
the vertical-offset conversion returns (slope * x + intercept - y) /
pixelsPerMeter; with no model it returns null. -/
theorem c3_vertical_offset_formula (ppm s b x y : ℚ) (tl : Option TopLine)
    (h : ppm ≠ 0) :
    metersAboveNetAtPoint ⟨some ppm, some ⟨.fin s, .fin b⟩⟩ x y
        = some (.fin ((s * x + b - y) / ppm)) ∧
    metersAboveNetAtPoint ⟨none, tl⟩ x y = none :=
  ⟨metersAboveNet_model ppm s b x y h, metersAboveNet_noModel tl x y⟩

/-- Witness for c3_vertical_offset_formula at a concrete model and point. -/
theorem c3_witness :
    metersAboveNetAtPoint ⟨some 2, some ⟨.fin 1, .fin 3⟩⟩ 5 4
        = some (.fin ((1 * 5 + 3 - 4) / 2)) ∧
    metersAboveNetAtPoint ⟨none, none⟩ 5 4 = none :=
  c3_vertical_offset_formula 2 1 3 5 4 none (by norm_num)

/-- C5: a rep with fewer than 2 points gets all four derived fields set
to null and nothing else is computed for it. -/
theorem c5_insufficient_points (st : CalibState) (pts : List ClickedPoint)
    (h : pts.length < 2) :
    computeRepMetrics st pts
      = { peakM := none, aboveNetCM := none, widthM := none, direction := none } := by
  rcases pts with _ | ⟨p, _ | ⟨q, rest⟩⟩
  · rfl
  · rfl
  · exfalso
    simp only [List.length_cons] at h
    omega

/-- Witness for c5_insufficient_points on an empty and a one-point rep. -/
theorem c5_witness :
    computeRepMetrics ⟨none, none⟩ [] = ⟨none, none, none, none⟩ ∧
    computeRepMetrics ⟨some 1, some ⟨.fin 0, .fin 0⟩⟩ [⟨3, 4, 5⟩]
      = ⟨none, none, none, none⟩ :=
  ⟨c5_insufficient_points _ _ (by decide), c5_insufficient_points _ _ (by decide)⟩

/-- C8: with pixelsPerMeter > 0 the vertical offset is strictly
decreasing in the pixel y coordinate, and a point exactly on the
reference line has offset 0. -/
theorem c8_monotone_and_online (ppm s b x y1 y2 : ℚ) (hp : 0 < ppm) (hy : y1 < y2) :
    metersAboveNetAtPoint ⟨some ppm, some ⟨.fin s, .fin b⟩⟩ x y1
        = some (.fin ((s * x + b - y1) / ppm)) ∧
    metersAboveNetAtPoint ⟨some ppm, some ⟨.fin s, .fin b⟩⟩ x y2
        = some (.fin ((s * x + b - y2) / ppm)) ∧
    (s * x + b - y2) / ppm < (s * x + b - y1) / ppm ∧
    metersAboveNetAtPoint ⟨some ppm, some ⟨.fin s, .fin b⟩⟩ x (s * x + b)
        = some (.fin 0) := by
  refine ⟨metersAboveNet_model _ _ _ _ _ hp.ne', metersAboveNet_model _ _ _ _ _ hp.ne',
    ?_, ?_⟩
  · exact (div_lt_div_iff_of_pos_right hp).mpr (by linarith)
  · rw [metersAboveNet_model _ _ _ _ _ hp.ne', sub_self, zero_div]

/-- Witness for c8_monotone_and_online at a concrete model and pair of
pixel heights. -/
theorem c8_witness :
    metersAboveNetAtPoint ⟨some 1, some ⟨.fin 0, .fin 0⟩⟩ 0 0
        = some (.fin ((0 * 0 + 0 - 0) / 1)) ∧
    metersAboveNetAtPoint ⟨some 1, some ⟨.fin 0, .fin 0⟩⟩ 0 1
        = some (.fin ((0 * 0 + 0 - 1) / 1)) ∧
    ((0 : ℚ) * 0 + 0 - 1) / 1 < (0 * 0 + 0 - 0) / 1 ∧
    metersAboveNetAtPoint ⟨some 1, some ⟨.fin 0, .fin 0⟩⟩ 0 (0 * 0 + 0)
        = some (.fin 0) :=
  c8_monotone_and_online 1 0 0 0 0 1 (by norm_num) (by norm_num)

/-- C10: with both measured spans zero, finalizeCalibration stores
pixelsPerMeter = 0, and the truthiness guard then makes both converters
return null for every input, so no division by zero is ever reached. -/
theorem c10_zero_scale_guard (c : CalibPts) (h1 : c.LT.y = c.LB.y)
    (h2 : c.RT.y = c.RB.y) :
    (finalizeCalibration c).pixelsPerMeter = some 0 ∧
    (∀ x y, metersAboveNetAtPoint (finalizeCalibration c) x y = none) ∧
    (∀ p1 p2, metersHorizDistance (finalizeCalibration c) p1 p2 = none) := by
  have hp : (finalizeCalibration c).pixelsPerMeter = some 0 := by
    show some ((|c.LT.y - c.LB.y| + |c.RT.y - c.RB.y|) / 2 / NET_HEIGHT_M) = some 0
    rw [h1, h2, sub_self, sub_self, abs_zero]
    norm_num
  refine ⟨hp, ?_, ?_⟩
  · intro x y
    rcases htl : (finalizeCalibration c).topLine with _ | tl <;>
      simp [metersAboveNetAtPoint, hp, htl]
  · intro p1 p2
    unfold metersHorizDistance
    rw [hp]
    simp

/-- Witness for c10_zero_scale_guard on a flat calibration input. -/
theorem c10_witness :
    (finalizeCalibration ⟨⟨0, 10⟩, ⟨0, 10⟩, ⟨5, 12⟩, ⟨6, 12⟩⟩).pixelsPerMeter = some 0 ∧
    metersAboveNetAtPoint (finalizeCalibration ⟨⟨0, 10⟩, ⟨0, 10⟩, ⟨5, 12⟩, ⟨6, 12⟩⟩) 3 4
      = none ∧
    metersHorizDistance (finalizeCalibration ⟨⟨0, 10⟩, ⟨0, 10⟩, ⟨5, 12⟩, ⟨6, 12⟩⟩)
      ⟨0, 0, 0⟩ ⟨7, 8, 9⟩ = none := by
  obtain ⟨h1, h2, h3⟩ := c10_zero_scale_guard ⟨⟨0, 10⟩, ⟨0, 10⟩, ⟨5, 12⟩, ⟨6, 12⟩⟩ rfl rfl
  exact ⟨h1, h2 3 4, h3 ⟨0, 0, 0⟩ ⟨7, 8, 9⟩⟩

/-- When no pixelsPerMeter is stored, the peak search keeps its initial
value -Infinity: every offset comes back null and is skipped. -/
lemma peakFold_noModel (st : CalibState) (hm : st.pixelsPerMeter = none)
    (pts : List ClickedPoint) : peakFold st pts = JNum.negInf := by
  have hnone : ∀ x y, metersAboveNetAtPoint st x y = none := by
    intro x y
    rcases st with ⟨pp, tl⟩
    rcases hm
    exact metersAboveNet_noModel tl x y
  have key : ∀ (l : List ClickedPoint) (acc : JNum),
      l.foldl (fun acc p =>
        match metersAboveNetAtPoint st p.x p.y with
        | some a => if JNum.jgt a acc then a else acc
        | none => acc) acc = acc := by
    intro l
    induction l with
    | nil => intro acc; rfl
    | cons p l ih =>
        intro acc
        simp only [List.foldl_cons]
        rw [hnone p.x p.y]
        exact ih acc
  exact key pts JNum.negInf

/-- C7 (amended): on a rep with at least 2 points where no point yields
a defined vertical offset because no calibration model exists, the three
measured fields peakM, aboveNetCM and widthM are left null, but the
direction arrow is still assigned from the first and last x coordinates
(the source computes it unconditionally). -/
theorem c7_no_model_fields (st : CalibState) (hm : st.pixelsPerMeter = none)
    (pts : List ClickedPoint) (h2 : 2 ≤ pts.length) :
    (computeRepMetrics st pts).peakM = none ∧
    (computeRepMetrics st pts).aboveNetCM = none ∧
    (computeRepMetrics st pts).widthM = none ∧
    (computeRepMetrics st pts).direction ≠ none := by
  rcases pts with _ | ⟨p0, _ | ⟨p1, rest⟩⟩
  · exfalso; simp at h2
  · exfalso; simp at h2
  · have hpk : peakFold st (p0 :: p1 :: rest) = JNum.negInf := peakFold_noModel st hm _
    have hw : ∀ q1 q2, metersHorizDistance st q1 q2 = none := by
      intro q1 q2
      rcases st with ⟨pp, tl⟩
      rcases hm
      exact metersHoriz_noModel tl q1 q2
    refine ⟨?_, ?_, ?_, ?_⟩ <;> simp [computeRepMetrics, hpk, hw]

/-- Witness for c7_no_model_fields on a concrete uncalibrated rep. -/
theorem c7_witness :
    (computeRepMetrics ⟨none, none⟩ [⟨2, 3, 0⟩, ⟨9, 5, 1⟩]).peakM = none ∧
    (computeRepMetrics ⟨none, none⟩ [⟨2, 3, 0⟩, ⟨9, 5, 1⟩]).aboveNetCM = none ∧
    (computeRepMetrics ⟨none, none⟩ [⟨2, 3, 0⟩, ⟨9, 5, 1⟩]).widthM = none ∧
    (computeRepMetrics ⟨none, none⟩ [⟨2, 3, 0⟩, ⟨9, 5, 1⟩]).direction ≠ none :=
  c7_no_model_fields ⟨none, none⟩ rfl _ (by decide)

/-- C7 counterexample: with no calibration model at all, a two-point rep
still gets a non-null direction field, refuting the claim that all four
derived fields stay null. -/
theorem c7_counterexample :
    (computeRepMetrics ⟨none, none⟩ [⟨0, 0, 0⟩, ⟨1, 0, 1⟩]).direction
        = some Direction.fwd ∧
    (computeRepMetrics ⟨none, none⟩ [⟨0, 0, 0⟩, ⟨1, 0, 1⟩]).direction ≠ none := by
  constructor <;> decide

/-- A strict-improvement update between finite values is a maximum. -/
lemma fin_if_eq_max (c v : ℚ) :
    (if c < v then JNum.fin v else JNum.fin c) = JNum.fin (max c v) := by
  rcases le_or_lt v c with h | h
  · rw [if_neg (not_lt.mpr h), max_eq_left h]
  · rw [if_pos h, max_eq_right h.le]

/-- The initial accumulator never exceeds a left fold of maxima. -/
lemma foldlMax_le_self {α : Type} (f : α → ℚ) :
    ∀ (l : List α) (c : ℚ), c ≤ l.foldl (fun c a => max c (f a)) c := by
  intro l
  induction l with
  | nil => intro c; exact le_refl c
  | cons a l ih => intro c; exact le_trans (le_max_left c (f a)) (ih (max c (f a)))

/-- Every listed value is bounded by the left fold of maxima. -/
lemma foldlMax_le_of_mem {α : Type} (f : α → ℚ) :
    ∀ (l : List α) (c : ℚ) (a : α), a ∈ l →
      f a ≤ l.foldl (fun c a => max c (f a)) c := by
  intro l
  induction l with
  | nil => intro c a ha; exact absurd ha (List.not_mem_nil a)
  | cons b l ih =>
      intro c a ha
      rcases List.mem_cons.mp ha with rfl | ha
      · exact le_trans (le_max_right c (f a)) (foldlMax_le_self f l _)
      · exact ih _ a ha

/-- The left fold of maxima is the initial accumulator or a listed value. -/
lemma foldlMax_eq_init_or_mem {α : Type} (f : α → ℚ) :
    ∀ (l : List α) (c : ℚ),
      l.foldl (fun c a => max c (f a)) c = c ∨
      ∃ a ∈ l, l.foldl (fun c a => max c (f a)) c = f a := by
  intro l
  induction l with
  | nil => intro c; exact Or.inl rfl
  | cons b l ih =>
      intro c
      rcases ih (max c (f b)) with h | ⟨a, ha, h⟩
      · rcases max_cases c (f b) with ⟨hm, _⟩ | ⟨hm, _⟩
        · exact Or.inl (h.trans hm)
        · exact Or.inr ⟨b, List.mem_cons_self b l, h.trans hm⟩
      · exact Or.inr ⟨a, List.mem_cons_of_mem b ha, h⟩

/-- Under a model with nonzero scale and finite line, the inner peak
fold starting from a finite value computes a running maximum of the
offsets. -/
lemma peakFold_model_go (ppm s b : ℚ) (hppm : ppm ≠ 0) :
    ∀ (l : List ClickedPoint) (c : ℚ),
      l.foldl (fun acc p =>
        match metersAboveNetAtPoint ⟨some ppm, some ⟨.fin s, .fin b⟩⟩ p.x p.y with
        | some a => if JNum.jgt a acc then a else acc
        | none => acc) (JNum.fin c)
      = JNum.fin (l.foldl (fun c p => max c (offQ ppm s b p)) c) := by
  intro l
  induction l with
  | nil => intro c; rfl
  | cons p l ih =>
      intro c
      simp only [List.foldl_cons]
      rw [metersAboveNet_offQ _ _ _ _ hppm]
      simp only [JNum.jgt, decide_eq_true_eq]
      rw [fin_if_eq_max]
      exact ih (max c (offQ ppm s b p))

/-- Under a model with nonzero scale and finite line, peakFold on a
nonempty rep computes the maximum offset over all its points. -/
lemma peakFold_model (ppm s b : ℚ) (hppm : ppm ≠ 0) (p0 : ClickedPoint)
    (l : List ClickedPoint) :
    peakFold ⟨some ppm, some ⟨.fin s, .fin b⟩⟩ (p0 :: l)
      = JNum.fin (l.foldl (fun c p => max c (offQ ppm s b p)) (offQ ppm s b p0)) := by
  unfold peakFold
  simp only [List.foldl_cons]
  rw [metersAboveNet_offQ _ _ _ _ hppm]
  simp only [JNum.jgt, if_true]
  exact peakFold_model_go ppm s b hppm l _

/-- C4: on a rep with at least 2 points aggregated under a model with
nonzero scale and finite line, peakM is the reference height 2.43 plus
the maximum vertical offset over all of the rep's points, and aboveNetCM
is that maximum offset times 100, rounded. -/
theorem c4_peak_fields (ppm s b : ℚ) (hppm : ppm ≠ 0) (pts : List ClickedPoint)
    (h2 : 2 ≤ pts.length) :
    ∃ M : ℚ,
      (∃ p ∈ pts,
        metersAboveNetAtPoint ⟨some ppm, some ⟨.fin s, .fin b⟩⟩ p.x p.y
          = some (.fin M)) ∧
      (∀ p ∈ pts, ∀ q : ℚ,
        metersAboveNetAtPoint ⟨some ppm, some ⟨.fin s, .fin b⟩⟩ p.x p.y
          = some (.fin q) → q ≤ M) ∧
      (computeRepMetrics ⟨some ppm, some ⟨.fin s, .fin b⟩⟩ pts).peakM
        = some (NET_HEIGHT_M + M) ∧
      (computeRepMetrics ⟨some ppm, some ⟨.fin s, .fin b⟩⟩ pts).aboveNetCM
        = some (jsRound (M * 100)) := by
  rcases pts with _ | ⟨p0, _ | ⟨p1, rest⟩⟩
  · exfalso; simp at h2
  · exfalso; simp at h2
  · refine ⟨(p1 :: rest).foldl (fun c p => max c (offQ ppm s b p)) (offQ ppm s b p0),
      ?_, ?_, ?_, ?_⟩
    · rcases foldlMax_eq_init_or_mem (offQ ppm s b) (p1 :: rest) (offQ ppm s b p0)
          with h | ⟨a, ha, h⟩
      · exact ⟨p0, List.mem_cons_self p0 _, by
          rw [metersAboveNet_offQ _ _ _ _ hppm, h]⟩
      · exact ⟨a, List.mem_cons_of_mem p0 ha, by
          rw [metersAboveNet_offQ _ _ _ _ hppm, h]⟩
    · intro p hp q hq
      rw [metersAboveNet_offQ _ _ _ _ hppm] at hq
      have hq2 : q = offQ ppm s b p := by
        injection hq with hq
        injection hq with hq
        exact hq.symm
      subst hq2
      rcases List.mem_cons.mp hp with rfl | hp
      · exact foldlMax_le_self (offQ ppm s b) (p1 :: rest) _
      · exact foldlMax_le_of_mem (offQ ppm s b) (p1 :: rest) _ p hp
    · have hfold := peakFold_model ppm s b hppm p0 (p1 :: rest)
      simp only [computeRepMetrics, hfold]
    · have hfold := peakFold_model ppm s b hppm p0 (p1 :: rest)
      simp only [computeRepMetrics, hfold]

/-- Witness for c4_peak_fields on a concrete two-point rep. -/
theorem c4_witness :
    ∃ M : ℚ,
      (∃ p ∈ [(⟨0, 0, 0⟩ : ClickedPoint), ⟨1, 0, 0⟩],
        metersAboveNetAtPoint ⟨some 1, some ⟨.fin 0, .fin 0⟩⟩ p.x p.y
          = some (.fin M)) ∧
      (∀ p ∈ [(⟨0, 0, 0⟩ : ClickedPoint), ⟨1, 0, 0⟩], ∀ q : ℚ,
        metersAboveNetAtPoint ⟨some 1, some ⟨.fin 0, .fin 0⟩⟩ p.x p.y
          = some (.fin q) → q ≤ M) ∧
      (computeRepMetrics ⟨some 1, some ⟨.fin 0, .fin 0⟩⟩
          [⟨0, 0, 0⟩, ⟨1, 0, 0⟩]).peakM = some (NET_HEIGHT_M + M) ∧
      (computeRepMetrics ⟨some 1, some ⟨.fin 0, .fin 0⟩⟩
          [⟨0, 0, 0⟩, ⟨1, 0, 0⟩]).aboveNetCM = some (jsRound (M * 100)) :=
  c4_peak_fields 1 0 0 (by norm_num) [⟨0, 0, 0⟩, ⟨1, 0, 0⟩] (by decide)

/-- C6: on a rep with at least 2 points aggregated under a model with
nonzero scale, widthM is non-null and equals the absolute x distance
between strictly the first and last recorded points divided by
pixelsPerMeter, and the direction arrow follows the sign of
last.x - first.x. -/
theorem c6_width_direction (ppm s b : ℚ) (hppm : ppm ≠ 0)
    (pts : List ClickedPoint) (pf pl : ClickedPoint) (h2 : 2 ≤ pts.length)
    (hf : pts.head? = some pf) (hl : pts.getLast? = some pl) :
    (computeRepMetrics ⟨some ppm, some ⟨.fin s, .fin b⟩⟩ pts).widthM
        = some (|pl.x - pf.x| / ppm) ∧
    (pf.x < pl.x →
      (computeRepMetrics ⟨some ppm, some ⟨.fin s, .fin b⟩⟩ pts).direction
        = some Direction.fwd) ∧
    (pl.x < pf.x →
      (computeRepMetrics ⟨some ppm, some ⟨.fin s, .fin b⟩⟩ pts).direction
        = some Direction.back) ∧
    (pl.x = pf.x →
      (computeRepMetrics ⟨some ppm, some ⟨.fin s, .fin b⟩⟩ pts).direction
        = some Direction.neutral) := by
  rcases pts with _ | ⟨p0, _ | ⟨p1, rest⟩⟩
  · exfalso; simp at h2
  · exfalso; simp at h2
  · rw [List.head?_cons] at hf
    injection hf with hf
    subst hf
    rw [List.getLast?_eq_getLast_of_ne_nil (List.cons_ne_nil _ _),
        List.getLast_cons (List.cons_ne_nil p1 rest)] at hl
    injection hl with hl
    have hwidth : (computeRepMetrics ⟨some ppm, some ⟨.fin s, .fin b⟩⟩
        (p0 :: p1 :: rest)).widthM
        = metersHorizDistance ⟨some ppm, some ⟨.fin s, .fin b⟩⟩ p0
            ((p1 :: rest).getLast (List.cons_ne_nil p1 rest)) := rfl
    have hdir : (computeRepMetrics ⟨some ppm, some ⟨.fin s, .fin b⟩⟩
        (p0 :: p1 :: rest)).direction
        = some (if ((p1 :: rest).getLast (List.cons_ne_nil p1 rest)).x > p0.x
            then Direction.fwd
            else if ((p1 :: rest).getLast (List.cons_ne_nil p1 rest)).x < p0.x
            then Direction.back else Direction.neutral) := rfl
    rw [hl] at hwidth hdir
    refine ⟨?_, ?_, ?_, ?_⟩
    · rw [hwidth]
      simp [metersHorizDistance, hppm]
    · intro h
      rw [hdir, if_pos h]
    · intro h
      rw [hdir, if_neg (asymm h), if_pos h]
    · intro h
      rw [hdir, if_neg (by rw [h]; exact lt_irrefl _),
        if_neg (by rw [h]; exact lt_irrefl _)]

/-- Witness for c6_width_direction on a concrete forward rep. -/
theorem c6_witness :
    (computeRepMetrics ⟨some 2, some ⟨.fin 0, .fin 0⟩⟩
        [⟨1, 5, 0⟩, ⟨4, 6, 1⟩, ⟨9, 7, 2⟩]).widthM = some (|(9 : ℚ) - 1| / 2) ∧
    ((1 : ℚ) < 9 →
      (computeRepMetrics ⟨some 2, some ⟨.fin 0, .fin 0⟩⟩
        [⟨1, 5, 0⟩, ⟨4, 6, 1⟩, ⟨9, 7, 2⟩]).direction = some Direction.fwd) ∧
    ((9 : ℚ) < 1 →
      (computeRepMetrics ⟨some 2, some ⟨.fin 0, .fin 0⟩⟩
        [⟨1, 5, 0⟩, ⟨4, 6, 1⟩, ⟨9, 7, 2⟩]).direction = some Direction.back) ∧
    ((9 : ℚ) = 1 →
      (computeRepMetrics ⟨some 2, some ⟨.fin 0, .fin 0⟩⟩
        [⟨1, 5, 0⟩, ⟨4, 6, 1⟩, ⟨9, 7, 2⟩]).direction = some Direction.neutral) :=
  c6_width_direction 2 0 0 (by norm_num) [⟨1, 5, 0⟩, ⟨4, 6, 1⟩, ⟨9, 7, 2⟩]
    ⟨1, 5, 0⟩ ⟨9, 7, 2⟩ (by decide) rfl rfl

/-- statsStep adds a non-null peak value to the running peak sum. -/
lemma statsStep_sumPeak (i : ℕ) (acc : StatsAcc) (r : RepMetrics) :
    (statsStep i acc r).sumPeak = acc.sumPeak + r.peakM.getD 0 := by
  rcases hp : r.peakM with _ | v <;> rcases hw : r.widthM with _ | w <;>
    simp [statsStep, hp, hw] <;> split <;> simp

/-- statsStep counts a non-null peak value. -/
lemma statsStep_nPeak (i : ℕ) (acc : StatsAcc) (r : RepMetrics) :
    (statsStep i acc r).nPeak = acc.nPeak + (if r.peakM.isSome then 1 else 0) := by
  rcases hp : r.peakM with _ | v <;> rcases hw : r.widthM with _ | w <;>
    simp [statsStep, hp, hw] <;> split <;> simp

/-- statsStep adds a non-null width value to the running width sum. -/
lemma statsStep_sumWidth (i : ℕ) (acc : StatsAcc) (r : RepMetrics) :
    (statsStep i acc r).sumWidth = acc.sumWidth + r.widthM.getD 0 := by
  rcases hp : r.peakM with _ | v <;> rcases hw : r.widthM with _ | w <;>
    simp [statsStep, hp, hw] <;> split <;> simp

/-- statsStep counts a non-null width value. -/
lemma statsStep_nWidth (i : ℕ) (acc : StatsAcc) (r : RepMetrics) :
    (statsStep i acc r).nWidth = acc.nWidth + (if r.widthM.isSome then 1 else 0) := by
  rcases hp : r.peakM with _ | v <;> rcases hw : r.widthM with _ | w <;>
    simp [statsStep, hp, hw] <;> split <;> simp

/-- statsStep updates the best fields exactly on a strict improvement of
a non-null peak. -/
lemma statsStep_bestIdx (i : ℕ) (acc : StatsAcc) (r : RepMetrics) :
    (statsStep i acc r).bestIdx
      = (match r.peakM with
         | some v => if JNum.jgt (.fin v) acc.bestVal then (i : ℤ) else acc.bestIdx
         | none => acc.bestIdx) := by
  rcases hp : r.peakM with _ | v <;> rcases hw : r.widthM with _ | w <;>
    simp [statsStep, hp, hw] <;> split <;> simp

/-- statsStep keeps or replaces the best value by the comparison rule. -/
lemma statsStep_bestVal (i : ℕ) (acc : StatsAcc) (r : RepMetrics) :
    (statsStep i acc r).bestVal
      = (match r.peakM with
         | some v => if JNum.jgt (.fin v) acc.bestVal then JNum.fin v else acc.bestVal
         | none => acc.bestVal) := by
  rcases hp : r.peakM with _ | v <;> rcases hw : r.widthM with _ | w <;>
    simp [statsStep, hp, hw] <;> split <;> simp

/-- The statistics loop accumulates the sums and counts of the non-null
peak and width values. -/
lemma statsGo_sums :
    ∀ (rs : List RepMetrics) (i : ℕ) (acc : StatsAcc),
      (statsGo i acc rs).sumPeak
        = acc.sumPeak + (rs.filterMap RepMetrics.peakM).sum ∧
      (statsGo i acc rs).nPeak
        = acc.nPeak + (rs.filterMap RepMetrics.peakM).length ∧
      (statsGo i acc rs).sumWidth
        = acc.sumWidth + (rs.filterMap RepMetrics.widthM).sum ∧
      (statsGo i acc rs).nWidth
        = acc.nWidth + (rs.filterMap RepMetrics.widthM).length := by
  intro rs
  induction rs with
  | nil => intro i acc; simp [statsGo]
  | cons r rs ih =>
      intro i acc
      obtain ⟨h1, h2, h3, h4⟩ := ih (i + 1) (statsStep i acc r)
      have hgo : statsGo i acc (r :: rs) = statsGo (i + 1) (statsStep i acc r) rs := rfl
      rw [hgo]
      refine ⟨?_, ?_, ?_, ?_⟩
      · rw [h1, statsStep_sumPeak]
        rcases hp : r.peakM with _ | v <;> simp [List.filterMap_cons, hp] <;> ring
      · rw [h2, statsStep_nPeak]
        rcases hp : r.peakM with _ | v <;> simp [List.filterMap_cons, hp] <;> omega
      · rw [h3, statsStep_sumWidth]
        rcases hw : r.widthM with _ | w <;> simp [List.filterMap_cons, hw] <;> ring
      · rw [h4, statsStep_nWidth]
        rcases hw : r.widthM with _ | w <;> simp [List.filterMap_cons, hw] <;> omega

/-- Starting from a finite best value w, the statistics loop either
keeps the accumulator's best fields (and then every non-null peak in the
remaining list is at most w), or moves them to the first strict
improvement chain: the final best is the maximum of the list, attained
at the least index among those exceeding w. -/
lemma statsGo_best_fin :
    ∀ (rs : List RepMetrics) (i : ℕ) (acc : StatsAcc) (w : ℚ),
      acc.bestVal = JNum.fin w →
      ((statsGo i acc rs).bestIdx = acc.bestIdx ∧
       (statsGo i acc rs).bestVal = JNum.fin w ∧
       (∀ j r q, rs.get? j = some r → r.peakM = some q → q ≤ w)) ∨
      (∃ j r v, rs.get? j = some r ∧ r.peakM = some v ∧
        (statsGo i acc rs).bestIdx = ((i + j : ℕ) : ℤ) ∧
        (statsGo i acc rs).bestVal = JNum.fin v ∧ w < v ∧
        (∀ j2 r2 q, rs.get? j2 = some r2 → r2.peakM = some q → q ≤ v) ∧
        (∀ j2 r2 q, j2 < j → rs.get? j2 = some r2 → r2.peakM = some q → q < v)) := by
  intro rs
  induction rs with
  | nil =>
      intro i acc w hw
      left
      refine ⟨rfl, hw, ?_⟩
      intro j r q hj _
      simp at hj
  | cons r rs ih =>
      intro i acc w hw
      have hgo : statsGo i acc (r :: rs) = statsGo (i + 1) (statsStep i acc r) rs := rfl
      rcases hp : r.peakM with _ | v
      · have hb1 : (statsStep i acc r).bestIdx = acc.bestIdx := by
          rw [statsStep_bestIdx, hp]
        have hb2 : (statsStep i acc r).bestVal = JNum.fin w := by
          rw [statsStep_bestVal, hp, hw]
        rcases ih (i + 1) (statsStep i acc r) w hb2 with
          ⟨h1, h2, h3⟩ | ⟨j, rr, v, hj, hpv, hbi, hbv, hwv, hub, hst⟩
        · left
          rw [hgo]
          refine ⟨h1.trans hb1, h2, ?_⟩
          intro j r2 q hj hq
          rcases j with _ | j
          · rw [List.get?_cons_zero] at hj
            injection hj with hj
            subst hj
            rw [hp] at hq
            cases hq
          · rw [List.get?_cons_succ] at hj
            exact h3 j r2 q hj hq
        · right
          rw [hgo]
          refine ⟨j + 1, rr, v, by rw [List.get?_cons_succ]; exact hj, hpv, ?_, hbv,
            hwv, ?_, ?_⟩
          · rw [hbi]; congr 1; omega
          · intro j2 r2 q hj2 hq2
            rcases j2 with _ | j2
            · rw [List.get?_cons_zero] at hj2
              injection hj2 with hj2
              subst hj2
              rw [hp] at hq2
              cases hq2
            · rw [List.get?_cons_succ] at hj2
              exact hub j2 r2 q hj2 hq2
          · intro j2 r2 q hlt hj2 hq2
            rcases j2 with _ | j2
            · rw [List.get?_cons_zero] at hj2
              injection hj2 with hj2
              subst hj2
              rw [hp] at hq2
              cases hq2
            · rw [List.get?_cons_succ] at hj2
              exact hst j2 r2 q (by omega) hj2 hq2
      · have hb1 : (statsStep i acc r).bestIdx
            = if w < v then (i : ℤ) else acc.bestIdx := by
          rw [statsStep_bestIdx, hp, hw]
          simp [JNum.jgt]
        have hb2 : (statsStep i acc r).bestVal
            = if w < v then JNum.fin v else JNum.fin w := by
          rw [statsStep_bestVal, hp, hw]
          simp [JNum.jgt]
        by_cases hwv : w < v
        · rw [if_pos hwv] at hb1 hb2
          rcases ih (i + 1) (statsStep i acc r) v hb2 with
            ⟨h1, h2, h3⟩ | ⟨j, rr, v2, hj, hpv, hbi, hbv, hvv, hub, hst⟩
          · right
            rw [hgo]
            refine ⟨0, r, v, rfl, hp, ?_, h2, hwv, ?_, ?_⟩
            · rw [h1.trans hb1]
              simp
            · intro j2 r2 q hj2 hq2
              rcases j2 with _ | j2
              · rw [List.get?_cons_zero] at hj2
                injection hj2 with hj2
                subst hj2
                rw [hp] at hq2
                injection hq2 with hq2
                subst hq2
                exact le_refl v
              · rw [List.get?_cons_succ] at hj2
                exact h3 j2 r2 q hj2 hq2
            · intro j2 r2 q hlt _ _
              omega
          · right
            rw [hgo]
            refine ⟨j + 1, rr, v2, by rw [List.get?_cons_succ]; exact hj, hpv, ?_,
              hbv, lt_trans hwv hvv, ?_, ?_⟩
            · rw [hbi]; congr 1; omega
            · intro j2 r2 q hj2 hq2
              rcases j2 with _ | j2
              · rw [List.get?_cons_zero] at hj2
                injection hj2 with hj2
                subst hj2
                rw [hp] at hq2
                injection hq2 with hq2
                subst hq2
                exact le_of_lt hvv
              · rw [List.get?_cons_succ] at hj2
                exact hub j2 r2 q hj2 hq2
            · intro j2 r2 q hlt hj2 hq2
              rcases j2 with _ | j2
              · rw [List.get?_cons_zero] at hj2
                injection hj2 with hj2
                subst hj2
                rw [hp] at hq2
                injection hq2 with hq2
                subst hq2
                exact hvv
              · rw [List.get?_cons_succ] at hj2
                exact hst j2 r2 q (by omega) hj2 hq2
        · rw [if_neg hwv] at hb1 hb2
          have hvw : v ≤ w := not_lt.mp hwv
          rcases ih (i + 1) (statsStep i acc r) w hb2 with
            ⟨h1, h2, h3⟩ | ⟨j, rr, v2, hj, hpv, hbi, hbv, hwv2, hub, hst⟩
          · left
            rw [hgo]
            refine ⟨h1.trans hb1, h2, ?_⟩
            intro j2 r2 q hj2 hq2
            rcases j2 with _ | j2
            · rw [List.get?_cons_zero] at hj2
              injection hj2 with hj2
              subst hj2
              rw [hp] at hq2
              injection hq2 with hq2
              subst hq2
              exact hvw
            · rw [List.get?_cons_succ] at hj2
              exact h3 j2 r2 q hj2 hq2
          · right
            rw [hgo]
            refine ⟨j + 1, rr, v2, by rw [List.get?_cons_succ]; exact hj, hpv, ?_,
              hbv, hwv2, ?_, ?_⟩
            · rw [hbi]; congr 1; omega
            · intro j2 r2 q hj2 hq2
              rcases j2 with _ | j2
              · rw [List.get?_cons_zero] at hj2
                injection hj2 with hj2
                subst hj2
                rw [hp] at hq2
                injection hq2 with hq2
                subst hq2
                exact le_trans hvw (le_of_lt hwv2)
              · rw [List.get?_cons_succ] at hj2
                exact hub j2 r2 q hj2 hq2
            · intro j2 r2 q hlt hj2 hq2
              rcases j2 with _ | j2
              · rw [List.get?_cons_zero] at hj2
                injection hj2 with hj2
                subst hj2
                rw [hp] at hq2
                injection hq2 with hq2
                subst hq2
                exact lt_of_le_of_lt hvw hwv2
              · rw [List.get?_cons_succ] at hj2
                exact hst j2 r2 q (by omega) hj2 hq2

/-- Starting from the initial -Infinity best value, the statistics loop
either sees no non-null peak at all and keeps bestIdx = -1, or ends on
the maximum peak, attained at its least index. -/
lemma statsGo_best_negInf :
    ∀ (rs : List RepMetrics) (i : ℕ) (acc : StatsAcc),
      acc.bestVal = JNum.negInf →
      ((statsGo i acc rs).bestIdx = acc.bestIdx ∧
       (statsGo i acc rs).bestVal = JNum.negInf ∧
       (∀ j r q, rs.get? j = some r → r.peakM = some q → False)) ∨
      (∃ j r v, rs.get? j = some r ∧ r.peakM = some v ∧
        (statsGo i acc rs).bestIdx = ((i + j : ℕ) : ℤ) ∧
        (statsGo i acc rs).bestVal = JNum.fin v ∧
        (∀ j2 r2 q, rs.get? j2 = some r2 → r2.peakM = some q → q ≤ v) ∧
        (∀ j2 r2 q, j2 < j → rs.get? j2 = some r2 → r2.peakM = some q → q < v)) := by
  intro rs
  induction rs with
  | nil =>
      intro i acc hw
      left
      refine ⟨rfl, hw, ?_⟩
      intro j r q hj _
      simp at hj
  | cons r rs ih =>
      intro i acc hw
      have hgo : statsGo i acc (r :: rs) = statsGo (i + 1) (statsStep i acc r) rs := rfl
      rcases hp : r.peakM with _ | v
      · have hb1 : (statsStep i acc r).bestIdx = acc.bestIdx := by
          rw [statsStep_bestIdx, hp]
        have hb2 : (statsStep i acc r).bestVal = JNum.negInf := by
          rw [statsStep_bestVal, hp, hw]
        rcases ih (i + 1) (statsStep i acc r) hb2 with
          ⟨h1, h2, h3⟩ | ⟨j, rr, v, hj, hpv, hbi, hbv, hub, hst⟩
        · left
          rw [hgo]
          refine ⟨h1.trans hb1, h2, ?_⟩
          intro j r2 q hj hq
          rcases j with _ | j
          · rw [List.get?_cons_zero] at hj
            injection hj with hj
            subst hj
            rw [hp] at hq
            cases hq
          · rw [List.get?_cons_succ] at hj
            exact h3 j r2 q hj hq
        · right
          rw [hgo]
          refine ⟨j + 1, rr, v, by rw [List.get?_cons_succ]; exact hj, hpv, ?_, hbv,
            ?_, ?_⟩
          · rw [hbi]; congr 1; omega
          · intro j2 r2 q hj2 hq2
            rcases j2 with _ | j2
            · rw [List.get?_cons_zero] at hj2
              injection hj2 with hj2
              subst hj2
              rw [hp] at hq2
              cases hq2
            · rw [List.get?_cons_succ] at hj2
              exact hub j2 r2 q hj2 hq2
          · intro j2 r2 q hlt hj2 hq2
            rcases j2 with _ | j2
            · rw [List.get?_cons_zero] at hj2
              injection hj2 with hj2
              subst hj2
              rw [hp] at hq2
              cases hq2
            · rw [List.get?_cons_succ] at hj2
              exact hst j2 r2 q (by omega) hj2 hq2
      · have hb1 : (statsStep i acc r).bestIdx = (i : ℤ) := by
          rw [statsStep_bestIdx, hp, hw]
          simp [JNum.jgt]
        have hb2 : (statsStep i acc r).bestVal = JNum.fin v := by
          rw [statsStep_bestVal, hp, hw]
          simp [JNum.jgt]
        rcases statsGo_best_fin rs (i + 1) (statsStep i acc r) v hb2 with
          ⟨h1, h2, h3⟩ | ⟨j, rr, v2, hj, hpv, hbi, hbv, hvv, hub, hst⟩
        · right
          rw [hgo]
          refine ⟨0, r, v, rfl, hp, ?_, h2, ?_, ?_⟩
          · rw [h1.trans hb1]
            simp
          · intro j2 r2 q hj2 hq2
            rcases j2 with _ | j2
            · rw [List.get?_cons_zero] at hj2
              injection hj2 with hj2
              subst hj2
              rw [hp] at hq2
              injection hq2 with hq2
              subst hq2
              exact le_refl v
            · rw [List.get?_cons_succ] at hj2
              exact h3 j2 r2 q hj2 hq2
          · intro j2 r2 q hlt _ _
            omega
        · right
          rw [hgo]
          refine ⟨j + 1, rr, v2, by rw [List.get?_cons_succ]; exact hj, hpv, ?_,
            hbv, ?_, ?_⟩
          · rw [hbi]; congr 1; omega
          · intro j2 r2 q hj2 hq2
            rcases j2 with _ | j2
            · rw [List.get?_cons_zero] at hj2
              injection hj2 with hj2
              subst hj2
              rw [hp] at hq2
              injection hq2 with hq2
              subst hq2
              exact le_of_lt hvv
            · rw [List.get?_cons_succ] at hj2
              exact hub j2 r2 q hj2 hq2
          · intro j2 r2 q hlt hj2 hq2
            rcases j2 with _ | j2
            · rw [List.get?_cons_zero] at hj2
              injection hj2 with hj2
              subst hj2
              rw [hp] at hq2
              injection hq2 with hq2
              subst hq2
              exact hvv
            · rw [List.get?_cons_succ] at hj2
              exact hst j2 r2 q (by omega) hj2 hq2

/-- C9: the renderStatsTable reductions.  The averages are the exact
arithmetic means of the non-null peakM and widthM values, and whenever
some peakM is non-null, the best fields hold the maximum peakM and the
lowest rep index attaining it (ties broken by lowest index, since the
loop replaces the best only on a strict improvement). -/
theorem c9_session_summary (reps : List RepMetrics) :
    avgPeak reps
      = (if (reps.filterMap RepMetrics.peakM).length = 0 then none
         else some ((reps.filterMap RepMetrics.peakM).sum
           / ((reps.filterMap RepMetrics.peakM).length : ℚ))) ∧
    avgWidth reps
      = (if (reps.filterMap RepMetrics.widthM).length = 0 then none
         else some ((reps.filterMap RepMetrics.widthM).sum
           / ((reps.filterMap RepMetrics.widthM).length : ℚ))) ∧
    (reps.filterMap RepMetrics.peakM ≠ [] →
      ∃ (i : ℕ) (r : RepMetrics) (v : ℚ), (sessionStats reps).bestIdx = (i : ℤ) ∧
        (sessionStats reps).bestVal = JNum.fin v ∧
        reps.get? i = some r ∧ r.peakM = some v ∧
        (∀ j r2 q, reps.get? j = some r2 → r2.peakM = some q → q ≤ v) ∧
        (∀ j r2 q, j < i → reps.get? j = some r2 → r2.peakM = some q → q < v)) := by
  obtain ⟨h1, h2, h3, h4⟩ := statsGo_sums reps 0 statsInit
  refine ⟨?_, ?_, ?_⟩
  · simp only [avgPeak, sessionStats]
    rw [h1, h2]
    norm_num [statsInit]
  · simp only [avgWidth, sessionStats]
    rw [h3, h4]
    norm_num [statsInit]
  · intro hne
    rcases statsGo_best_negInf reps 0 statsInit rfl with
      ⟨_, _, hnone⟩ | ⟨j, r, v, hj, hpv, hbi, hbv, hub, hst⟩
    · exfalso
      obtain ⟨q, hq⟩ := List.exists_mem_of_ne_nil _ hne
      obtain ⟨r, hr, hrp⟩ := List.mem_filterMap.mp hq
      obtain ⟨k, hk⟩ := List.mem_iff_get?.mp hr
      exact hnone k r q hk hrp
    · refine ⟨j, r, v, ?_, hbv, hj, hpv, hub, hst⟩
      rw [show sessionStats reps = statsGo 0 statsInit reps from rfl, hbi]
      simp

/-- Witness for c9_session_summary on three reps with a tie between the
first two peaks: the best index is the lowest, and both averages are the
exact means. -/
theorem c9_witness :
    avgPeak [(⟨some 3, none, some 1, none⟩ : RepMetrics),
        ⟨some 3, none, none, none⟩, ⟨none, none, some 2, none⟩] = some 3 ∧
    avgWidth [(⟨some 3, none, some 1, none⟩ : RepMetrics),
        ⟨some 3, none, none, none⟩, ⟨none, none, some 2, none⟩] = some (3 / 2) ∧
    (sessionStats [(⟨some 3, none, some 1, none⟩ : RepMetrics),
        ⟨some 3, none, none, none⟩, ⟨none, none, some 2, none⟩]).bestIdx = 0 ∧
    (sessionStats [(⟨some 3, none, some 1, none⟩ : RepMetrics),
        ⟨some 3, none, none, none⟩, ⟨none, none, some 2, none⟩]).bestVal
      = JNum.fin 3 := by
  obtain ⟨h1, h2, h3⟩ := c9_session_summary
    [(⟨some 3, none, some 1, none⟩ : RepMetrics),
      ⟨some 3, none, none, none⟩, ⟨none, none, some 2, none⟩]
  obtain ⟨i, r, v, hbi, hbv, hget, hpv, hub, hst⟩ := h3 (by decide)
  have h3lev : (3 : ℚ) ≤ v := hub 0 ⟨some 3, none, some 1, none⟩ 3 rfl rfl
  have hvle : v ≤ 3 := by
    rcases i with _ | _ | _ | i
    · have h0 : [(⟨some 3, none, some 1, none⟩ : RepMetrics),
          ⟨some 3, none, none, none⟩, ⟨none, none, some 2, none⟩].get? 0
          = some (⟨some 3, none, some 1, none⟩ : RepMetrics) := rfl
      rw [h0] at hget
      injection hget with hget
      rw [← hget] at hpv
      have hv2 : some (3 : ℚ) = some v := hpv
      injection hv2 with hv2
      exact le_of_eq hv2.symm
    · have h0 : [(⟨some 3, none, some 1, none⟩ : RepMetrics),
          ⟨some 3, none, none, none⟩, ⟨none, none, some 2, none⟩].get? 1
          = some (⟨some 3, none, none, none⟩ : RepMetrics) := rfl
      rw [h0] at hget
      injection hget with hget
      rw [← hget] at hpv
      have hv2 : some (3 : ℚ) = some v := hpv
      injection hv2 with hv2
      exact le_of_eq hv2.symm
    · have h0 : [(⟨some 3, none, some 1, none⟩ : RepMetrics),
          ⟨some 3, none, none, none⟩, ⟨none, none, some 2, none⟩].get? 2
          = some (⟨none, none, some 2, none⟩ : RepMetrics) := rfl
      rw [h0] at hget
      injection hget with hget
      rw [← hget] at hpv
      have hv2 : (none : Option ℚ) = some v := hpv
      cases hv2
    · simp at hget
  have hv : v = 3 := le_antisymm hvle h3lev
  have hi0 : i = 0 := by
    by_contra h0
    have h3v := hst 0 ⟨some 3, none, some 1, none⟩ 3 (Nat.pos_of_ne_zero h0) rfl rfl
    rw [hv] at h3v
    exact absurd h3v (lt_irrefl 3)
  rw [hi0] at hbi
  refine ⟨?_, ?_, ?_, ?_⟩
  · rw [h1]
    norm_num [List.filterMap_cons]
  · rw [h2]
    norm_num [List.filterMap_cons]
  · rw [hbi]
    simp
  · rw [hbv, hv]
